import Mathlib

/-!
Verification development for the contentforge repository: a shallow
embedding of its data model (content versions, review requests), the
version store backed by a key/value collection, the human review queue,
and the research phase of the publication workflow, together with
theorems settling the specification claims.

Python dictionaries are modelled as association lists with dict
semantics (`dictSet` replaces the value at an existing key in place and
otherwise appends; `dictGet` returns the first binding).  `datetime`
values are modelled by their ISO-8601 strings (`isoformat` /
`fromisoformat` are mutually inverse, so the string is a faithful
representation).  Real-valued similarity scores and time spans are
modelled by rationals.
-/

namespace ContentForge

/-! ## Python dict model: association lists with dict semantics -/

def dictGet {α : Type} (m : List (String × α)) (k : String) : Option α :=
  match m with
  | [] => none
  | (k', v) :: rest => if k' = k then some v else dictGet rest k

def dictSet {α : Type} (m : List (String × α)) (k : String) (v : α) :
    List (String × α) :=
  match m with
  | [] => [(k, v)]
  | (k', v') :: rest => if k' = k then (k, v) :: rest else (k', v') :: dictSet rest k v

def dictErase {α : Type} (m : List (String × α)) (k : String) : List (String × α) :=
  m.filter (fun p => decide (p.1 ≠ k))

def dictHasKey {α : Type} (m : List (String × α)) (k : String) : Bool :=
  (dictGet m k).isSome

def dictModify {α : Type} (m : List (String × α)) (k : String) (f : α → α) :
    List (String × α) :=
  match m with
  | [] => []
  | (k', v) :: rest => if k' = k then (k', f v) :: rest else (k', v) :: dictModify rest k f

/-! ## Data model (src/models/content_models.py) -/

/-- `ContentStatus` enum of src/models/content_models.py. -/
inductive ContentStatus where
  | scraped | ai_written | ai_reviewed | human_review | human_edited | finalized | published
deriving DecidableEq

/-- `AgentType` enum of src/models/content_models.py. -/
inductive AgentType where
  | scraper | ai_writer | ai_reviewer | human_writer | human_reviewer | human_editor | system
deriving DecidableEq

/-- The `.value` string of a `ContentStatus` member. -/
def ContentStatus.value : ContentStatus → String
  | .scraped => "scraped"
  | .ai_written => "ai_written"
  | .ai_reviewed => "ai_reviewed"
  | .human_review => "human_review"
  | .human_edited => "human_edited"
  | .finalized => "finalized"
  | .published => "published"

/-- `ContentStatus(s)`: look a member up by value; `none` models the
`ValueError` raised on an unknown value. -/
def ContentStatus.of_value (s : String) : Option ContentStatus :=
  if s = "scraped" then some .scraped
  else if s = "ai_written" then some .ai_written
  else if s = "ai_reviewed" then some .ai_reviewed
  else if s = "human_review" then some .human_review
  else if s = "human_edited" then some .human_edited
  else if s = "finalized" then some .finalized
  else if s = "published" then some .published
  else none

/-- The `.value` string of an `AgentType` member. -/
def AgentType.value : AgentType → String
  | .scraper => "scraper"
  | .ai_writer => "ai_writer"
  | .ai_reviewer => "ai_reviewer"
  | .human_writer => "human_writer"
  | .human_reviewer => "human_reviewer"
  | .human_editor => "human_editor"
  | .system => "system"

/-- `AgentType(s)`: look a member up by value; `none` models the
`ValueError` raised on an unknown value. -/
def AgentType.of_value (s : String) : Option AgentType :=
  if s = "scraper" then some .scraper
  else if s = "ai_writer" then some .ai_writer
  else if s = "ai_reviewer" then some .ai_reviewer
  else if s = "human_writer" then some .human_writer
  else if s = "human_reviewer" then some .human_reviewer
  else if s = "human_editor" then some .human_editor
  else if s = "system" then some .system
  else none

/-- A metadata value as the repository uses them: a Python `str`, `int`,
or `datetime` (the latter represented by its ISO-8601 string).  The
repository stores only these scalar kinds in version metadata. -/
inductive MetaVal where
  | str (s : String)
  | int (n : Int)
  | dt (iso : String)
deriving DecidableEq

/-- The string a metadata value becomes when `save_version` prepares
ChromaDB metadata: `value.isoformat()` for a `datetime`, else
`str(value)`. -/
def MetaVal.py_str : MetaVal → String
  | .str s => s
  | .int n => toString n
  | .dt iso => iso

/-- `isinstance(value, str)`. -/
def MetaVal.is_str : MetaVal → Bool
  | .str _ => true
  | _ => false

/-- `ContentVersion._make_serializable` on a scalar metadata value:
`datetime` becomes its `isoformat()` string; strings and ints are
returned unchanged.  (The enum and nested dict/list branches are not
exercised by the repository's metadata.) -/
def make_serializable : MetaVal → MetaVal
  | .dt iso => .str iso
  | v => v

/-- Zero-padded base-16 rendering of `n` on `w` digits, used by the
UUID model. -/
def hex_pad (n w : Nat) : String :=
  let ds := Nat.toDigits 16 n
  String.mk (List.replicate (w - ds.length) '0' ++ ds)

/-- Models `str(uuid.uuid4())`: a fresh 36-character hyphenated
hexadecimal string; the randomness is abstracted by a seed. -/
def gen_uuid (seed : Nat) : String :=
  hex_pad (seed / 2 ^ 96 % 2 ^ 32) 8 ++ "-" ++
  hex_pad (seed / 2 ^ 80 % 2 ^ 16) 4 ++ "-" ++
  hex_pad (seed / 2 ^ 64 % 2 ^ 16) 4 ++ "-" ++
  hex_pad (seed / 2 ^ 48 % 2 ^ 16) 4 ++ "-" ++
  hex_pad (seed % 2 ^ 48) 12

/-- Deterministic stand-in for `hashlib.md5(content).hexdigest()`: a
32-hex-digit digest that is a function of the content only (the claims
depend on no other property of the fingerprint). -/
def md5_hex (s : String) : String :=
  hex_pad (s.data.foldl (fun a c => (a * 65536 + c.toNat) % 2 ^ 128) 0) 32

/-- `ContentVersion` dataclass of src/models/content_models.py, after
`__post_init__` has run.  `created_at` is the ISO-8601 string of the
timestamp. -/
structure ContentVersion where
  id : String
  chapter_id : String
  content : String
  status : ContentStatus
  agent_type : AgentType
  metadata : List (String × MetaVal)
  created_at : String
  parent_version_id : Option String
deriving DecidableEq

/-- Constructing a `ContentVersion` runs `__post_init__`: an empty id is
replaced by a freshly generated UUID (`uuid_seed` abstracts the
randomness), and metadata is made serializable. -/
def mk_content_version (id chapter_id content : String) (status : ContentStatus)
    (agent_type : AgentType) (metadata : List (String × MetaVal))
    (created_at : String) (parent_version_id : Option String) (uuid_seed : Nat) :
    ContentVersion :=
  { id := if id = "" then gen_uuid uuid_seed else id
    chapter_id := chapter_id
    content := content
    status := status
    agent_type := agent_type
    metadata := metadata.map (fun p => (p.1, make_serializable p.2))
    created_at := created_at
    parent_version_id := parent_version_id }

/-- `ContentVersion.get_content_hash`. -/
def ContentVersion.get_content_hash (v : ContentVersion) : String :=
  md5_hex v.content

/-! ## Version store (src/storage/version_manager.py)

The ChromaDB collection is modelled as a dict from version id to the
stored document (the content text) plus its metadata record.  The
`meta_`-prefixed user-metadata keys are kept in a separate field, which
models exactly the prefix-on-save / strip-on-load scheme. -/

/-- The metadata record `save_version` attaches to a stored document. -/
structure ChromaMeta where
  version_id : String
  chapter_id : String
  status : String
  agent_type : String
  created_at : String
  parent_version_id : String
  content_length : Nat
  content_hash : String
  meta : List (String × String)
deriving DecidableEq

/-- One stored document with its metadata. -/
structure ChromaEntry where
  doc : String
  meta : ChromaMeta
deriving DecidableEq

abbrev Store : Type := List (String × ChromaEntry)

/-- The metadata dict built by `save_version` (lines 48-64): fixed
fields, then every user-metadata value stringified (`isoformat()` for
datetimes, `str(value)` otherwise) under its `meta_`-prefixed key. -/
def build_chroma_meta (v : ContentVersion) : ChromaMeta :=
  { version_id := v.id
    chapter_id := v.chapter_id
    status := v.status.value
    agent_type := v.agent_type.value
    created_at := v.created_at
    parent_version_id := v.parent_version_id.getD ""
    content_length := v.content.length
    content_hash := v.get_content_hash
    meta := v.metadata.map (fun p => (p.1, p.2.py_str)) }

/-- The validation branches at the top of `save_version`: missing
id/chapter_id, then empty content. -/
inductive SaveReject where
  | missing_fields
  | empty_content
deriving DecidableEq

/-- `save_version`'s explicit rejection logic (lines 39-45). -/
def save_version_reject (v : ContentVersion) : Option SaveReject :=
  if v.id = "" ∨ v.chapter_id = "" then some .missing_fields
  else if v.content = "" then some .empty_content
  else none

/-- `save_version`: validate, then `collection.add` the document keyed
by the version id.  Adding an id that is already present raises inside
the `try`, which the function reports as `False`. -/
def save_version (s : Store) (v : ContentVersion) : Store × Bool :=
  match save_version_reject v with
  | some _ => (s, false)
  | none =>
    if dictHasKey s v.id then (s, false)
    else (dictSet s v.id ⟨v.content, build_chroma_meta v⟩, true)

/-- Rebuilding a `ContentVersion` from a stored document and its
metadata (`get_version` lines 101-116; the same reconstruction is used
by `get_chapter_versions` and `search_similar_content`).  An invalid
stored status or agent-type string raises `ValueError`, which the
callers' `except` blocks turn into an absent result. -/
def reconstruct_version (doc : String) (m : ChromaMeta) : Option ContentVersion :=
  match ContentStatus.of_value m.status, AgentType.of_value m.agent_type with
  | some st, some ag =>
    some { id := m.version_id
           chapter_id := m.chapter_id
           content := doc
           status := st
           agent_type := ag
           metadata := m.meta.map (fun p => (p.1, MetaVal.str p.2))
           created_at := m.created_at
           parent_version_id :=
             if m.parent_version_id = "" then none else some m.parent_version_id }
  | _, _ => none

/-- `get_version`: fetch by id; an absent id (or empty stored document)
yields `None`. -/
def get_version (s : Store) (version_id : String) : Option ContentVersion :=
  match dictGet s version_id with
  | none => none
  | some e => if e.doc = "" then none else reconstruct_version e.doc e.meta

/-- `update_version_status` (lines 300-327): `get_version`, set the new
status, `collection.delete` the old entry, then `save_version` the
updated one. -/
def update_version_status (s : Store) (version_id : String) (new_status : ContentStatus) :
    Store × Bool :=
  match get_version s version_id with
  | none => (s, false)
  | some v =>
    let v2 := { v with status := new_status }
    let s1 := dictErase s version_id
    save_version s1 v2

/-- The successive collection states an observer sees while
`update_version_status` executes: the initial store, the store right
after `collection.delete`, and the store after the re-insert. -/
def update_version_status_states (s : Store) (version_id : String)
    (new_status : ContentStatus) : List Store :=
  match get_version s version_id with
  | none => [s]
  | some v =>
    let v2 := { v with status := new_status }
    let s1 := dictErase s version_id
    [s, s1, (save_version s1 v2).1]

/-- `delete_version` (lines 329-346): `collection.delete` never raises
for a missing id (it is a no-op), so the function returns `True`
unconditionally. -/
def delete_version (s : Store) (version_id : String) : Store × Bool :=
  (dictErase s version_id, true)

/-- Configuration values read by the version store (src/config.py). -/
def SIMILARITY_THRESHOLD : ℚ := 8 / 10

def MAX_SEARCH_RESULTS : Nat := 5

/-- One raw hit returned by the ChromaDB vector query inside
`search_similar_content`: the stored document, its metadata and the
reported vector distance.  The query's chapter/status `where` filtering
and `n_results` truncation happen before these hits are produced. -/
structure QueryHit where
  doc : String
  meta : ChromaMeta
  distance : ℚ
deriving DecidableEq

/-- The result-collection loop of `search_similar_content` (lines
203-230): similarity is `1 - distance`; a hit is skipped when
`similarity < 1.0 - SIMILARITY_THRESHOLD`; a reconstruction error
raises, which the surrounding `except` turns into an empty result. -/
def search_collect : List QueryHit → Option (List (ContentVersion × ℚ))
  | [] => some []
  | h :: rest =>
    let similarity := 1 - h.distance
    if similarity < 1 - SIMILARITY_THRESHOLD then search_collect rest
    else
      match reconstruct_version h.doc h.meta with
      | none => none
      | some v => (search_collect rest).map (fun l => (v, similarity) :: l)

/-- `search_similar_content`, given the raw vector-query hits. -/
def search_similar_content (hits : List QueryHit) : List (ContentVersion × ℚ) :=
  (search_collect hits).getD []

/-! ## Version tree (`get_version_tree`, lines 239-276) -/

/-- A node of the tree dict: either a `version_info` dict (id, status,
agent_type, created_at, content_length, children) or the stub dict
(id, children) created for a parent id that is not yet a key. -/
inductive TNode where
  | full (id status agent_type created_at : String) (content_length : Nat)
      (children : List TNode)
  | stub (id : String) (children : List TNode)

/-- Append to a node's `children` list. -/
def t_append_child (n child : TNode) : TNode :=
  match n with
  | .full i st ag ca cl ch => .full i st ag ca cl (ch ++ [child])
  | .stub i ch => .stub i (ch ++ [child])

/-- The `version_info` dict built for one version. -/
def tree_info (v : ContentVersion) : TNode :=
  .full v.id v.status.value v.agent_type.value v.created_at v.content.length []

abbrev Forest : Type := List (String × TNode)

/-- One iteration of the `get_version_tree` loop.  `if
version.parent_version_id:` is Python truthiness, so both `None` and
the empty string take the root branch. -/
def get_version_tree_step (tree : Forest) (v : ContentVersion) : Forest :=
  match v.parent_version_id with
  | some pid =>
    if pid = "" then dictSet tree v.id (tree_info v)
    else
      let tree1 := if dictHasKey tree pid then tree else dictSet tree pid (.stub pid [])
      dictModify tree1 pid (fun n => t_append_child n (tree_info v))
  | none => dictSet tree v.id (tree_info v)

/-- `get_version_tree` over the chapter's versions (as returned by
`get_chapter_versions`, i.e. sorted by creation time). -/
def get_version_tree (versions : List ContentVersion) : Forest :=
  versions.foldl get_version_tree_step []

mutual
/-- How many nodes of the tree carry the given id (stubs included). -/
def count_id (i : String) : TNode → Nat
  | .full j _ _ _ _ ch => (if j = i then 1 else 0) + count_id_list i ch
  | .stub j ch => (if j = i then 1 else 0) + count_id_list i ch

def count_id_list (i : String) : List TNode → Nat
  | [] => 0
  | n :: ns => count_id i n + count_id_list i ns
end

mutual
/-- How many `version_info` (full) nodes carry the given id. -/
def count_full (i : String) : TNode → Nat
  | .full j _ _ _ _ ch => (if j = i then 1 else 0) + count_full_list i ch
  | .stub _ ch => count_full_list i ch

def count_full_list (i : String) : List TNode → Nat
  | [] => 0
  | n :: ns => count_full i n + count_full_list i ns
end

def count_id_forest (i : String) : Forest → Nat
  | [] => 0
  | (_, n) :: rest => count_id i n + count_id_forest i rest

def count_full_forest (i : String) : Forest → Nat
  | [] => 0
  | (_, n) :: rest => count_full i n + count_full_forest i rest

/-- Checks that, scanning the versions in order, every version whose
parent id belongs to the chapter's id set is preceded by that parent
(the order produced by creation-time sorting when children are created
after their parents). -/
def lineage_ordered (all_ids : List String) : List String → List ContentVersion → Bool
  | _, [] => true
  | seen, v :: rest =>
    (match v.parent_version_id with
     | none => true
     | some pid => decide (pid ∈ seen) || decide (pid ∉ all_ids)) &&
    lineage_ordered all_ids (seen ++ [v.id]) rest

/-! ## Human review queue (src/agents/human_interface.py) -/

/-- `ReviewRequest` dataclass of src/models/content_models.py;
`submitted_at` is the ISO-8601 string of the timestamp. -/
structure ReviewRequest where
  id : String
  chapter_id : String
  version : ContentVersion
  review_type : String
  submitted_at : String
  status : String
  reviewer_notes : String
deriving DecidableEq

/-- The two collections of `HumanReviewInterface`. -/
structure ReviewState where
  pending : List (String × ReviewRequest)
  completed : List (String × ReviewRequest)
deriving DecidableEq

/-- `submit_for_human_review` (lines 14-45). -/
def submit_for_human_review (st : ReviewState) (chapter_id : String)
    (version : ContentVersion) (review_type : String) (uuid_seed : Nat)
    (now : String) : ReviewState × String :=
  let review_id := gen_uuid uuid_seed
  ({ st with
     pending := dictSet st.pending review_id
       ⟨review_id, chapter_id, version, review_type, now, "pending", ""⟩ },
   review_id)

/-- `get_pending_reviews` (lines 47-73): keeps only requests whose
status is `'pending'`, then applies the optional chapter and
review-type filters (a filter argument that is `None` or the empty
string is falsy and disables the filter). -/
def get_pending_reviews (st : ReviewState) (chapter_id : Option String)
    (review_type : Option String) : List (String × ReviewRequest) :=
  st.pending.filter (fun p =>
    decide (p.2.status = "pending") &&
    (match chapter_id with
     | none => true
     | some c => if c = "" then true else decide (p.2.chapter_id = c)) &&
    (match review_type with
     | none => true
     | some t => if t = "" then true else decide (p.2.review_type = t)))

/-- The `version_info` part of a review-details view. -/
structure ReviewVersionInfo where
  version_id : String
  status : String
  agent_type : String
  created_at : String
  content_length : Nat
  content_preview : String
deriving DecidableEq

/-- The dict returned by `get_review_details`. -/
structure ReviewDetails where
  review_id : String
  chapter_id : String
  review_type : String
  status : String
  submitted_at : String
  version_info : ReviewVersionInfo
  reviewer_notes : String
deriving DecidableEq

/-- `get_review_details` (lines 75-97): looks in the pending collection
first, then in the completed one. -/
def get_review_details (st : ReviewState) (review_id : String) :
    Option ReviewDetails :=
  let found :=
    match dictGet st.pending review_id with
    | some r => some r
    | none => dictGet st.completed review_id
  match found with
  | none => none
  | some r =>
    some { review_id := review_id
           chapter_id := r.chapter_id
           review_type := r.review_type
           status := r.status
           submitted_at := r.submitted_at
           version_info :=
             { version_id := r.version.id
               status := r.version.status.value
               agent_type := r.version.agent_type.value
               created_at := r.version.created_at
               content_length := r.version.content.length
               content_preview :=
                 if 200 < r.version.content.length then
                   (r.version.content.take 200).append "..."
                 else r.version.content }
           reviewer_notes := r.reviewer_notes }

/-- `complete_review` (lines 99-147): absent review id yields `None`;
otherwise a new human-edited `ContentVersion` is constructed (through
the dataclass constructor, hence `__post_init__`), the request is
marked completed with the feedback as its notes and moved from the
pending to the completed collection. -/
def complete_review (st : ReviewState) (review_id updated_content feedback
    reviewer_name : String) (uuid_seed : Nat) (now : String) :
    ReviewState × Option ContentVersion :=
  match dictGet st.pending review_id with
  | none => (st, none)
  | some review =>
    let new_version := mk_content_version (gen_uuid uuid_seed) review.chapter_id
      updated_content ContentStatus.human_edited AgentType.human_editor
      [("feedback", .str feedback), ("review_id", .str review_id),
       ("reviewer_name", .str reviewer_name), ("review_type", .str review.review_type),
       ("review_completed_at", .str now)]
      now (some review.version.id) uuid_seed
    let review2 := { review with status := "completed", reviewer_notes := feedback }
    ({ pending := dictErase st.pending review_id
       completed := dictSet st.completed review_id review2 },
     some new_version)

/-- `reject_review` (lines 149-169): marks the request rejected in
place; it stays in the pending collection. -/
def reject_review (st : ReviewState) (review_id reason : String) :
    ReviewState × Bool :=
  match dictGet st.pending review_id with
  | none => (st, false)
  | some review =>
    ({ st with
       pending := dictSet st.pending review_id
         { review with status := "rejected", reviewer_notes := reason } },
     true)

/-- `_calculate_urgency` (lines 253-262); times are in seconds, the age
is converted to hours by dividing by 3600. -/
def calculate_urgency (now submitted_at : ℚ) : String :=
  let hours_since_submission := (now - submitted_at) / 3600
  if 72 < hours_since_submission then "high"
  else if 24 < hours_since_submission then "medium"
  else "low"

/-! ## Research phase of the workflow (src/workflow/publication_workflow.py) -/

/-- `PublicationPhase` enum of src/models/chapter_models.py. -/
inductive PublicationPhase where
  | research | drafting | spinning | review | human_review | finalization
  | publication | completed | failed
deriving DecidableEq

/-- What happens inside one `_research_chapter` call: the research
provider succeeds, raises, or returns an empty result, or the store
save fails. -/
inductive ResearchOutcome where
  | ok | provider_raised | empty_result | save_failed
deriving DecidableEq

/-- `_research_chapter` (lines 219-260): every failure path — including
an exception from the provider, which the `except` block catches — is
reported as `False`; only a successful research returns `True`.  The
coroutine never lets an exception escape. -/
def research_chapter : ResearchOutcome → Bool
  | .ok => true
  | _ => false

/-- The per-chapter results `asyncio.gather(..., return_exceptions=True)`
delivers to `_research_phase`: since `_research_chapter` traps every
exception, each result is an `ok` boolean, never an exception value. -/
def research_gather (outcomes : List ResearchOutcome) : List (Except String Bool) :=
  outcomes.map (fun o => Except.ok (research_chapter o))

/-- The result check of `_research_phase` (lines 205-210): a chapter is
marked `failed` only when its gathered result is an `Exception`
instance; any other result — including `False` — advances it to
`drafting`. -/
def research_phase (outcomes : List ResearchOutcome) : List PublicationPhase :=
  (research_gather outcomes).map (fun result =>
    match result with
    | .error _ => PublicationPhase.failed
    | .ok _ => PublicationPhase.drafting)

/-- The guard at the top of the `_drafting_phase` loop (line 271): a
chapter is processed by the drafting phase exactly when its phase is
`drafting`. -/
def drafting_phase_processes (p : PublicationPhase) : Bool :=
  p = PublicationPhase.drafting

/-! ## Concrete instances used by witnesses and counterexamples -/

/-- A root version of chapter `ch1`. -/
def vA : ContentVersion :=
  mk_content_version "A" "ch1" "alpha text" .scraped .scraper [] "2024-01-01T00:00:00" none 0

/-- A child of `vA` (as drafting produces from research). -/
def vB : ContentVersion :=
  mk_content_version "B" "ch1" "beta text" .ai_written .ai_writer []
    "2024-01-01T00:00:01" (some "A") 0

/-- A child of `vB` (as spinning produces from the draft): a
three-version lineage chain, the shape every chapter that passes
research → drafting → spinning takes. -/
def vC : ContentVersion :=
  mk_content_version "C" "ch1" "gamma text" .ai_reviewed .ai_reviewer []
    "2024-01-01T00:00:02" (some "B") 0

/-- The chapter's versions sorted by creation time. -/
def chainABC : List ContentVersion := [vA, vB, vC]

/-- A version whose metadata carries a Python `int`. -/
def vInt : ContentVersion :=
  mk_content_version "v1" "ch1" "hello" .scraped .scraper [("n", .int 5)]
    "2024-01-01T00:00:00" none 0

/-- A well-formed version whose metadata values are all strings. -/
def vStrW : ContentVersion :=
  mk_content_version "w1" "ch1" "world" .ai_written .ai_writer [("k", .str "x")]
    "2024-01-01T00:00:03" none 0

/-- A store holding exactly `vA`. -/
def store0 : Store := (save_version [] vA).1

/-- A raw vector-query hit on `vA`'s stored document at distance `1/2`,
i.e. similarity `1/2`, below the configured 0.8 threshold. -/
def hit0 : QueryHit := ⟨vA.content, build_chroma_meta vA, 1 / 2⟩

/-- A pending review request on `vA`. -/
def rq0 : ReviewRequest :=
  ⟨"r1", "ch1", vA, "general", "2024-01-02T00:00:00", "pending", ""⟩

/-- A review-queue state with `rq0` pending. -/
def st0 : ReviewState := ⟨[("r1", rq0)], []⟩

/-- The research outcomes of the five-chapter isolation scenario:
chapter 3's research provider raises. -/
def outcomes5 : List ResearchOutcome := [.ok, .ok, .provider_raised, .ok, .ok]

/-! ## Supporting lemmas -/

theorem dictGet_set_self {α : Type} (m : List (String × α)) (k : String) (v : α) :
    dictGet (dictSet m k v) k = some v := by
  induction m with
  | nil => simp [dictSet, dictGet]
  | cons hd tl ih =>
    obtain ⟨k', v'⟩ := hd
    by_cases h : k' = k <;> simp [dictSet, dictGet, h, ih]

theorem dictGet_set_ne {α : Type} (m : List (String × α)) (k k' : String) (v : α)
    (h : k ≠ k') : dictGet (dictSet m k v) k' = dictGet m k' := by
  induction m with
  | nil => simp [dictSet, dictGet, h]
  | cons hd tl ih =>
    obtain ⟨k₀, v₀⟩ := hd
    by_cases h₀ : k₀ = k
    · subst h₀; simp [dictSet, dictGet, h]
    · simp [dictSet, dictGet, h₀, ih]

theorem dictGet_erase_self {α : Type} (m : List (String × α)) (k : String) :
    dictGet (dictErase m k) k = none := by
  induction m with
  | nil => simp [dictErase, dictGet]
  | cons hd tl ih =>
    obtain ⟨k', v'⟩ := hd
    by_cases h : k' = k
    · subst h; simpa [dictErase, List.filter] using ih
    · simpa [dictErase, List.filter, h, dictGet] using ih

theorem dictHasKey_erase_self {α : Type} (m : List (String × α)) (k : String) :
    dictHasKey (dictErase m k) k = false := by
  simp [dictHasKey, dictGet_erase_self]

theorem dictSet_fresh {α : Type} (m : List (String × α)) (k : String) (v : α)
    (h : dictHasKey m k = false) : dictSet m k v = m ++ [(k, v)] := by
  induction m with
  | nil => simp [dictSet]
  | cons hd tl ih =>
    obtain ⟨k', v'⟩ := hd
    by_cases h' : k' = k
    · subst h'; simp [dictHasKey, dictGet] at h
    · simp [dictHasKey, dictGet, h'] at h
      simp [dictSet, h', ih (by simp [dictHasKey, h])]

theorem dictGet_mem {α : Type} (m : List (String × α)) (k : String) (v : α)
    (h : dictGet m k = some v) : (k, v) ∈ m := by
  induction m with
  | nil => simp [dictGet] at h
  | cons hd tl ih =>
    obtain ⟨k', v'⟩ := hd
    by_cases h' : k' = k
    · subst h'
      simp [dictGet] at h
      simp [h]
    · simp [dictGet, h'] at h
      exact List.mem_cons_of_mem _ (ih h)

theorem dictGet_of_mem_nodup {α : Type} (m : List (String × α)) (k : String) (v : α)
    (hmem : (k, v) ∈ m) (hnd : (m.map Prod.fst).Nodup) : dictGet m k = some v := by
  induction m with
  | nil => simp at hmem
  | cons hd tl ih =>
    obtain ⟨k', v'⟩ := hd
    rw [List.map_cons, List.nodup_cons] at hnd
    rcases List.mem_cons.mp hmem with heq | hmem'
    · obtain ⟨hk, hv⟩ := Prod.mk.injEq k v k' v' ▸ heq
      subst hk; subst hv
      simp [dictGet]
    · have hkmem : k ∈ tl.map Prod.fst := List.mem_map_of_mem Prod.fst hmem'
      have hk' : k' ≠ k := by
        intro hcontra
        exact hnd.1 (hcontra ▸ hkmem)
      simp only [dictGet, if_neg hk']
      exact ih hmem' hnd.2

theorem dictSet_mem_entries {α : Type} (m : List (String × α)) (k : String) (v : α)
    (p : String × α) (hp : p ∈ dictSet m k v) : p.1 = k ∨ p ∈ m := by
  induction m with
  | nil =>
    simp [dictSet] at hp
    simp [hp]
  | cons hd tl ih =>
    obtain ⟨k', v'⟩ := hd
    by_cases h : k' = k
    · subst h
      have hset : dictSet ((k', v') :: tl) k' v = (k', v) :: tl := by simp [dictSet]
      rw [hset] at hp
      rcases List.mem_cons.mp hp with heq | hmem'
      · exact Or.inl (by simp [heq])
      · exact Or.inr (List.mem_cons_of_mem _ hmem')
    · have hset : dictSet ((k', v') :: tl) k v = (k', v') :: dictSet tl k v := by
        simp [dictSet, h]
      rw [hset] at hp
      rcases List.mem_cons.mp hp with heq | hmem'
      · exact Or.inr (by simp [heq])
      · rcases ih hmem' with h1 | h1
        · exact Or.inl h1
        · exact Or.inr (List.mem_cons_of_mem _ h1)

theorem dictSet_map_fst_nodup {α : Type} (m : List (String × α)) (k : String) (v : α)
    (hnd : (m.map Prod.fst).Nodup) : ((dictSet m k v).map Prod.fst).Nodup := by
  induction m with
  | nil => simp [dictSet]
  | cons hd tl ih =>
    obtain ⟨k', v'⟩ := hd
    rw [List.map_cons, List.nodup_cons] at hnd
    by_cases h : k' = k
    · subst h
      have hset : dictSet ((k', v') :: tl) k' v = (k', v) :: tl := by simp [dictSet]
      rw [hset, List.map_cons, List.nodup_cons]
      exact hnd
    · have hset : dictSet ((k', v') :: tl) k v = (k', v') :: dictSet tl k v := by
        simp [dictSet, h]
      rw [hset, List.map_cons, List.nodup_cons]
      refine ⟨?_, ih hnd.2⟩
      intro hb
      rcases List.mem_map.mp hb with ⟨p, hp, hpf⟩
      have hpf' : p.1 = k' := hpf
      rcases dictSet_mem_entries tl k v p hp with h1 | h1
      · exact h (by rw [← hpf', h1])
      · have : k' ∈ tl.map Prod.fst := by
          rw [← hpf']
          exact List.mem_map_of_mem Prod.fst h1
        exact hnd.1 this

theorem status_of_value_value (st : ContentStatus) :
    ContentStatus.of_value st.value = some st := by
  cases st <;> rfl

theorem agent_of_value_value (ag : AgentType) :
    AgentType.of_value ag.value = some ag := by
  cases ag <;> rfl

theorem gen_uuid_ne_empty (seed : Nat) : gen_uuid seed ≠ "" := by
  intro h
  have hlen : (gen_uuid seed).length = 0 := by rw [h]; rfl
  rw [gen_uuid] at hlen
  simp only [String.length_append] at hlen
  have h1 : ("-" : String).length = 1 := rfl
  omega

theorem meta_py_str_roundtrip (md : List (String × MetaVal))
    (h : ∀ p ∈ md, p.2.is_str = true) :
    (md.map (fun p => (p.1, p.2.py_str))).map (fun p => (p.1, MetaVal.str p.2)) = md := by
  induction md with
  | nil => rfl
  | cons hd tl ih =>
    obtain ⟨k, val⟩ := hd
    cases val with
    | str t =>
      simp only [List.map_cons]
      rw [ih (fun p hp => h p (List.mem_cons_of_mem _ hp))]
      rfl
    | int n => exact absurd (h (k, .int n) (List.mem_cons_self _ _)) (by simp [MetaVal.is_str])
    | dt iso => exact absurd (h (k, .dt iso) (List.mem_cons_self _ _)) (by simp [MetaVal.is_str])

/-- Reconstructing a just-saved document gives back the version, for
versions whose metadata values are all strings and whose parent id is
not the empty string. -/
theorem reconstruct_build (v : ContentVersion)
    (hmd : ∀ p ∈ v.metadata, p.2.is_str = true)
    (hpar : v.parent_version_id ≠ some "") :
    reconstruct_version v.content (build_chroma_meta v) = some v := by
  obtain ⟨vid, vch, vco, vst, vag, vmd, vca, vpv⟩ := v
  simp only [reconstruct_version, build_chroma_meta,
    status_of_value_value, agent_of_value_value, Option.some.injEq,
    ContentVersion.mk.injEq, true_and, and_true]
  refine ⟨?_, ?_⟩
  · exact meta_py_str_roundtrip vmd hmd
  · cases vpv with
    | none => simp
    | some p =>
      have hp : p ≠ "" := by
        intro hc
        exact hpar (by rw [hc])
      simp [hp]

/-- Every version `get_version` returns has non-empty content, all-string
metadata values, and no empty-string parent id. -/
theorem get_version_shape (s : Store) (i : String) (v : ContentVersion)
    (h : get_version s i = some v) :
    v.content ≠ "" ∧ (∀ p ∈ v.metadata, p.2.is_str = true) ∧
      v.parent_version_id ≠ some "" := by
  unfold get_version at h
  cases hdg : dictGet s i with
  | none => rw [hdg] at h; simp at h
  | some e =>
    rw [hdg] at h
    replace h : (if e.doc = "" then none else reconstruct_version e.doc e.meta) = some v := h
    by_cases hdoc : e.doc = ""
    · rw [if_pos hdoc] at h; simp at h
    · rw [if_neg hdoc] at h
      unfold reconstruct_version at h
      cases hst : ContentStatus.of_value e.meta.status with
      | none => rw [hst] at h; simp at h
      | some st =>
        cases hag : AgentType.of_value e.meta.agent_type with
        | none => rw [hst, hag] at h; simp at h
        | some ag =>
          rw [hst, hag] at h
          simp only [Option.some.injEq] at h
          subst h
          refine ⟨hdoc, ?_, ?_⟩
          · intro p hp
            rcases List.mem_map.mp hp with ⟨q, hq, hqe⟩
            rw [← hqe]
            rfl
          · by_cases hp : e.meta.parent_version_id = "" <;> simp [hp]

/-- Core save/get round trip, shared by the store theorems. -/
theorem save_get_core (s : Store) (v : ContentVersion)
    (hid : v.id ≠ "") (hch : v.chapter_id ≠ "") (hco : v.content ≠ "")
    (hmd : ∀ p ∈ v.metadata, p.2.is_str = true)
    (hpar : v.parent_version_id ≠ some "")
    (hfresh : dictHasKey s v.id = false) :
    (save_version s v).2 = true ∧
      get_version (save_version s v).1 v.id = some v := by
  have hrej : save_version_reject v = none := by
    unfold save_version_reject
    rw [if_neg, if_neg hco]
    rintro (hc | hc)
    · exact hid hc
    · exact hch hc
  have hs : save_version s v = (dictSet s v.id ⟨v.content, build_chroma_meta v⟩, true) := by
    simp [save_version, hrej, hfresh]
  refine ⟨by rw [hs], ?_⟩
  rw [hs]
  have hget : get_version (dictSet s v.id ⟨v.content, build_chroma_meta v⟩) v.id =
      (if v.content = "" then none else reconstruct_version v.content (build_chroma_meta v)) := by
    unfold get_version
    rw [dictGet_set_self]
  rw [hget, if_neg hco]
  exact reconstruct_build v hmd hpar

/-! ## Claim theorems -/

/-- C5 (corrected): for every well-formed version whose metadata values
are all strings and whose parent id is not the empty string, saving into
a store that does not yet hold its id succeeds, and `get_version` on the
saved id returns exactly the version: id, chapter, content (hence the
content hash), status, producer, metadata, creation timestamp and parent
are all preserved. -/
theorem save_version_get_version_roundtrip (s : Store) (v : ContentVersion)
    (hid : v.id ≠ "") (hch : v.chapter_id ≠ "") (hco : v.content ≠ "")
    (hmd : ∀ p ∈ v.metadata, p.2.is_str = true)
    (hpar : v.parent_version_id ≠ some "")
    (hfresh : dictHasKey s v.id = false) :
    (save_version s v).2 = true ∧
      get_version (save_version s v).1 v.id = some v :=
  save_get_core s v hid hch hco hmd hpar hfresh

/-- Witness for C5: a concrete well-formed version with string metadata
round-trips exactly. -/
theorem save_version_get_version_roundtrip_witness :
    (save_version ([] : Store) vStrW).2 = true ∧
      get_version (save_version ([] : Store) vStrW).1 vStrW.id = some vStrW :=
  save_version_get_version_roundtrip ([] : Store) vStrW (by decide) (by decide)
    (by decide) (by decide) (by decide) (by decide)

/-- Counterexample for C5: a version whose metadata carries the Python
int `5` does not round-trip — save stringifies every metadata value, so
`get` returns the string `"5"` instead and the returned version differs
from the saved one. -/
theorem save_int_metadata_not_roundtrip :
    (save_version ([] : Store) vInt).2 = true ∧
      get_version (save_version ([] : Store) vInt).1 vInt.id ≠ some vInt ∧
      (get_version (save_version ([] : Store) vInt).1 vInt.id).map
        ContentVersion.metadata = some [("n", MetaVal.str "5")] ∧
      vInt.metadata = [("n", MetaVal.int 5)] := by
  refine ⟨by decide, by decide, by decide, by decide⟩

/-- C1 (corrected): `update_version_status` is get, physical delete,
then re-insert.  On a present id it reports success and the final store
again holds the record with only the status changed (all other fields,
metadata and the fingerprint preserved), but the execution passes
through the intermediate state `dictErase s id` — the second element of
the observable state trace — in which the record for the id is absent
from the store. -/
theorem update_version_status_delete_reinsert (s : Store) (i : String)
    (ns : ContentStatus) (v : ContentVersion)
    (h : get_version s i = some v) (hvi : v.id = i) (hine : i ≠ "")
    (hch : v.chapter_id ≠ "") :
    (update_version_status s i ns).2 = true ∧
    get_version (update_version_status s i ns).1 i = some { v with status := ns } ∧
    update_version_status_states s i ns =
      [s, dictErase s i, (update_version_status s i ns).1] ∧
    dictHasKey (dictErase s i) i = false := by
  subst hvi
  obtain ⟨hco, hmd, hpar⟩ := get_version_shape s v.id v h
  have hfresh : dictHasKey (dictErase s v.id) ({ v with status := ns } : ContentVersion).id
      = false := dictHasKey_erase_self s v.id
  have hrt := save_get_core (dictErase s v.id) { v with status := ns }
    hine hch hco hmd hpar hfresh
  have hupd : update_version_status s v.id ns =
      save_version (dictErase s v.id) { v with status := ns } := by
    simp [update_version_status, h]
  have hsts : update_version_status_states s v.id ns =
      [s, dictErase s v.id, (save_version (dictErase s v.id) { v with status := ns }).1] := by
    simp [update_version_status_states, h]
  refine ⟨?_, ?_, ?_, dictHasKey_erase_self s v.id⟩
  · rw [hupd]
    exact hrt.1
  · rw [hupd]
    exact hrt.2
  · rw [hsts, hupd]

/-- Witness for C1: updating the stored `vA` to `published` succeeds and
the final store holds `vA` with only the status changed. -/
theorem update_version_status_delete_reinsert_witness :
    (update_version_status store0 "A" ContentStatus.published).2 = true ∧
      get_version (update_version_status store0 "A" ContentStatus.published).1 "A" =
        some { vA with status := ContentStatus.published } := by
  have h := update_version_status_delete_reinsert store0 "A" ContentStatus.published vA
    (by decide) (by decide) (by decide) (by decide)
  exact ⟨h.1, h.2.1⟩

/-- Counterexample for C1: with `vA` stored under `"A"`, the state after
`collection.delete` — the second state of the execution trace — no
longer contains `"A"`: the record is absent mid-update, refuting the
single-atomic-in-place-update reading. -/
theorem update_status_absence_window :
    dictHasKey store0 "A" = true ∧
      (update_version_status_states store0 "A" ContentStatus.published).getD 1 store0 =
        dictErase store0 "A" ∧
      dictHasKey
        ((update_version_status_states store0 "A" ContentStatus.published).getD 1 store0)
        "A" = false := by
  refine ⟨by decide, by decide, by decide⟩

/-- C6 (corrected): `delete_version` reports success for every id,
including ids that never existed — `collection.delete` is a silent no-op
on a missing id and the code never checks existence, so no `not_found`
is ever signalled; afterwards the id is (still) absent. -/
theorem delete_version_always_ok (s : Store) (i : String) :
    (delete_version s i).2 = true ∧ dictGet (delete_version s i).1 i = none :=
  ⟨rfl, dictGet_erase_self s i⟩

/-- Counterexample for C6: deleting an id that never existed (the store
is empty) silently reports success instead of `not_found`. -/
theorem delete_version_never_existed_reports_ok :
    dictHasKey ([] : Store) "no-such-id" = false ∧
      (delete_version ([] : Store) "no-such-id").2 = true := by
  refine ⟨by decide, by decide⟩

/-- C4 (code bug): in the five-chapter scenario in which chapter 3's
research provider raises, `_research_chapter` traps the exception and
returns `False`; `_research_phase` marks a chapter failed only when the
gathered result is an `Exception` instance, so chapter 3 is advanced to
`drafting` like its siblings and is then processed by the drafting
phase, instead of becoming `failed` and being excluded. -/
theorem research_failure_advances_to_drafting :
    research_chapter ResearchOutcome.provider_raised = false ∧
    research_phase outcomes5 =
      [.drafting, .drafting, .drafting, .drafting, .drafting] ∧
    (research_phase outcomes5).getD 2 .failed ≠ PublicationPhase.failed ∧
    drafting_phase_processes ((research_phase outcomes5).getD 2 .failed) = true := by
  refine ⟨by decide, by decide, by decide, by decide⟩

/-- C10 (confirmed): a `ContentVersion` built through the dataclass
constructor has a non-empty id (`__post_init__` replaces an empty id by
a fresh UUID), so `save_version`'s missing-fields rejection can only be
caused by an empty chapter id, and its other rejection only by empty
content. -/
theorem post_init_id_nonempty_save_reject (id chapter_id content : String)
    (st : ContentStatus) (ag : AgentType) (md : List (String × MetaVal))
    (ca : String) (pv : Option String) (seed : Nat) :
    (mk_content_version id chapter_id content st ag md ca pv seed).id ≠ "" ∧
    (save_version_reject (mk_content_version id chapter_id content st ag md ca pv seed) =
        some SaveReject.missing_fields → chapter_id = "") ∧
    (save_version_reject (mk_content_version id chapter_id content st ag md ca pv seed) =
        some SaveReject.empty_content → content = "") := by
  have hid : (mk_content_version id chapter_id content st ag md ca pv seed).id ≠ "" := by
    show (if id = "" then gen_uuid seed else id) ≠ ""
    by_cases h : id = ""
    · rw [if_pos h]
      exact gen_uuid_ne_empty seed
    · rw [if_neg h]
      exact h
  refine ⟨hid, ?_, ?_⟩
  · intro h
    unfold save_version_reject at h
    by_cases hch : chapter_id = ""
    · exact hch
    · have hcond : ¬ ((mk_content_version id chapter_id content st ag md ca pv seed).id = ""
          ∨ (mk_content_version id chapter_id content st ag md ca pv seed).chapter_id = "") := by
        rintro (hc | hc)
        · exact hid hc
        · exact hch hc
      rw [if_neg hcond] at h
      by_cases hco : (mk_content_version id chapter_id content st ag md ca pv seed).content = ""
      · rw [if_pos hco] at h
        simp at h
      · rw [if_neg hco] at h
        simp at h
  · intro h
    unfold save_version_reject at h
    by_cases hcond : (mk_content_version id chapter_id content st ag md ca pv seed).id = ""
        ∨ (mk_content_version id chapter_id content st ag md ca pv seed).chapter_id = ""
    · rw [if_pos hcond] at h
      simp at h
    · rw [if_neg hcond] at h
      by_cases hco : (mk_content_version id chapter_id content st ag md ca pv seed).content = ""
      · exact hco
      · rw [if_neg hco] at h
        simp at h

/-- Witness for C10: constructed with an empty id, the version still has
a non-empty (UUID) id. -/
theorem post_init_id_nonempty_save_reject_witness :
    (mk_content_version "" "ch1" "c" .scraped .scraper [] "t" none 0).id ≠ "" :=
  (post_init_id_nonempty_save_reject "" "ch1" "c" .scraped .scraper [] "t" none 0).1

/-- C8 (confirmed): for every pending request, the derived urgency is
`high` exactly when its age exceeds 72 hours, `medium` exactly when it
exceeds 24 but not 72 hours, and `low` otherwise; in particular 25 hours
gives `medium`, 73 hours gives `high`, and 1 hour gives `low`. -/
theorem calculate_urgency_spec (now submitted_at : ℚ) :
    (calculate_urgency now submitted_at = "high" ↔
      72 < (now - submitted_at) / 3600) ∧
    (calculate_urgency now submitted_at = "medium" ↔
      (24 < (now - submitted_at) / 3600 ∧ (now - submitted_at) / 3600 ≤ 72)) ∧
    (calculate_urgency now submitted_at = "low" ↔
      (now - submitted_at) / 3600 ≤ 24) ∧
    calculate_urgency (25 * 3600) 0 = "medium" ∧
    calculate_urgency (73 * 3600) 0 = "high" ∧
    calculate_urgency (1 * 3600) 0 = "low" := by
  have hhm : ("high" : String) ≠ "medium" := by decide
  have hhl : ("high" : String) ≠ "low" := by decide
  have hmh : ("medium" : String) ≠ "high" := by decide
  have hml : ("medium" : String) ≠ "low" := by decide
  have hlh : ("low" : String) ≠ "high" := by decide
  have hlm : ("low" : String) ≠ "medium" := by decide
  refine ⟨?_, ?_, ?_, ?_, ?_, ?_⟩
  · unfold calculate_urgency
    by_cases h72 : 72 < (now - submitted_at) / 3600
    · simp [h72]
    · by_cases h24 : 24 < (now - submitted_at) / 3600 <;> simp [h72, h24, hmh, hlh]
  · unfold calculate_urgency
    by_cases h72 : 72 < (now - submitted_at) / 3600
    · have : ¬ (now - submitted_at) / 3600 ≤ 72 := not_le.mpr h72
      simp [h72, hhm, this]
    · by_cases h24 : 24 < (now - submitted_at) / 3600
      · simp [h72, h24, not_lt.mp h72]
      · simp [h72, h24, hlm]
  · unfold calculate_urgency
    by_cases h72 : 72 < (now - submitted_at) / 3600
    · have : ¬ (now - submitted_at) / 3600 ≤ 24 := by
        rw [not_le]
        linarith
      simp [h72, hhl, this]
    · by_cases h24 : 24 < (now - submitted_at) / 3600
      · simp [h72, h24, hml, not_le.mpr h24]
      · simp [h72, h24, not_lt.mp h24]
  · norm_num [calculate_urgency]
  · norm_num [calculate_urgency]
  · norm_num [calculate_urgency]

/-- Concrete evaluation of the search loop on `hit0` (distance `1/2`,
similarity `1/2`): the hit is kept. -/
theorem search_hit0_eval :
    search_similar_content [hit0] = [(vA, 1 - (1 / 2 : ℚ))] := by
  have hcond : ¬ (1 - hit0.distance < 1 - SIMILARITY_THRESHOLD) := by
    norm_num [hit0, SIMILARITY_THRESHOLD]
  have hrec : reconstruct_version hit0.doc hit0.meta = some vA :=
    reconstruct_build vA (by decide) (by decide)
  simp only [search_similar_content, search_collect, hcond, if_neg, hrec]
  rfl

/-- C3 (corrected): every `(version, score)` pair that
`search_similar_content` returns has similarity `1 - distance` at least
`1 - SIMILARITY_THRESHOLD` — the code treats the configured value as a
distance bound, so the effective cutoff is `0.2`, not the configured
`0.8`; hits below that cutoff are skipped. -/
theorem search_similar_scores_ge_cutoff (hits : List QueryHit)
    (v : ContentVersion) (sc : ℚ)
    (h : (v, sc) ∈ search_similar_content hits) :
    1 - SIMILARITY_THRESHOLD ≤ sc := by
  unfold search_similar_content at h
  induction hits with
  | nil => simp [search_collect] at h
  | cons hd tl ih =>
    simp only [search_collect] at h
    by_cases hcond : 1 - hd.distance < 1 - SIMILARITY_THRESHOLD
    · rw [if_pos hcond] at h
      exact ih h
    · rw [if_neg hcond] at h
      cases hrec : reconstruct_version hd.doc hd.meta with
      | none =>
        rw [hrec] at h
        simp at h
      | some v2 =>
        rw [hrec] at h
        cases hcol : search_collect tl with
        | none =>
          rw [hcol] at h
          simp at h
        | some l =>
          rw [hcol] at h
          simp only [Option.map_some', Option.getD_some] at h
          rcases List.mem_cons.mp h with heq | hmem
          · have hsc : sc = 1 - hd.distance := congrArg Prod.snd heq
            rw [hsc]
            linarith [not_lt.mp hcond]
          · refine ih ?_
            rw [hcol]
            simpa using hmem

/-- Witness for C3: the pair returned for `hit0` scores `1/2`, which is
at least the effective cutoff `1 - SIMILARITY_THRESHOLD = 0.2`. -/
theorem search_similar_scores_ge_cutoff_witness :
    (vA, 1 - (1 / 2 : ℚ)) ∈ search_similar_content [hit0] ∧
      1 - SIMILARITY_THRESHOLD ≤ 1 - (1 / 2 : ℚ) := by
  have hmem : (vA, 1 - (1 / 2 : ℚ)) ∈ search_similar_content [hit0] := by
    rw [search_hit0_eval]
    exact List.mem_singleton.mpr rfl
  exact ⟨hmem, search_similar_scores_ge_cutoff [hit0] vA (1 - (1 / 2 : ℚ)) hmem⟩

/-- Counterexample for C3: the hit at distance `1/2` is returned with
similarity `1/2`, strictly below the configured similarity threshold
`0.8` — refuting the claim that every returned pair scores at least the
configured threshold. -/
theorem search_returns_below_threshold :
    (vA, 1 - (1 / 2 : ℚ)) ∈ search_similar_content [hit0] ∧
      1 - (1 / 2 : ℚ) < SIMILARITY_THRESHOLD := by
  constructor
  · rw [search_hit0_eval]
    exact List.mem_singleton.mpr rfl
  · norm_num [SIMILARITY_THRESHOLD]

/-- C7 (confirmed): for a review id present in the pending collection,
`complete_review` returns a new version with status `human_edited`,
producer `human_editor`, parent the reviewed version, content the
edited text, and metadata carrying the feedback, review id, reviewer
name, review type and completion time; it marks the request completed
with the feedback as its notes and moves it from pending to completed.
For an id absent from the pending collection it returns the not-found
result. -/
theorem complete_review_spec (st : ReviewState)
    (review_id updated_content feedback reviewer_name : String)
    (uuid_seed : Nat) (now : String) :
    (∀ r, dictGet st.pending review_id = some r →
      ((complete_review st review_id updated_content feedback reviewer_name
          uuid_seed now).2.map ContentVersion.status =
        some ContentStatus.human_edited) ∧
      ((complete_review st review_id updated_content feedback reviewer_name
          uuid_seed now).2.map ContentVersion.agent_type =
        some AgentType.human_editor) ∧
      ((complete_review st review_id updated_content feedback reviewer_name
          uuid_seed now).2.map ContentVersion.parent_version_id =
        some (some r.version.id)) ∧
      ((complete_review st review_id updated_content feedback reviewer_name
          uuid_seed now).2.map ContentVersion.chapter_id = some r.chapter_id) ∧
      ((complete_review st review_id updated_content feedback reviewer_name
          uuid_seed now).2.map ContentVersion.content = some updated_content) ∧
      ((complete_review st review_id updated_content feedback reviewer_name
          uuid_seed now).2.map ContentVersion.metadata =
        some [("feedback", MetaVal.str feedback),
              ("review_id", MetaVal.str review_id),
              ("reviewer_name", MetaVal.str reviewer_name),
              ("review_type", MetaVal.str r.review_type),
              ("review_completed_at", MetaVal.str now)]) ∧
      dictGet (complete_review st review_id updated_content feedback reviewer_name
        uuid_seed now).1.pending review_id = none ∧
      dictGet (complete_review st review_id updated_content feedback reviewer_name
        uuid_seed now).1.completed review_id =
        some { r with status := "completed", reviewer_notes := feedback }) ∧
    (dictGet st.pending review_id = none →
      complete_review st review_id updated_content feedback reviewer_name
        uuid_seed now = (st, none)) := by
  constructor
  · intro r h
    have hrun : complete_review st review_id updated_content feedback reviewer_name
        uuid_seed now =
        ({ pending := dictErase st.pending review_id
           completed := dictSet st.completed review_id
             { r with status := "completed", reviewer_notes := feedback } },
         some (mk_content_version (gen_uuid uuid_seed) r.chapter_id updated_content
           ContentStatus.human_edited AgentType.human_editor
           [("feedback", .str feedback), ("review_id", .str review_id),
            ("reviewer_name", .str reviewer_name), ("review_type", .str r.review_type),
            ("review_completed_at", .str now)]
           now (some r.version.id) uuid_seed)) := by
      simp [complete_review, h]
    rw [hrun]
    refine ⟨rfl, rfl, rfl, rfl, rfl, rfl, ?_, ?_⟩
    · exact dictGet_erase_self st.pending review_id
    · exact dictGet_set_self st.completed review_id _
  · intro h
    simp [complete_review, h]

/-- Witness for C7: completing the pending review `r1` yields a
human-edited version and moves the request into the completed
collection with status `completed`. -/
theorem complete_review_spec_witness :
    ((complete_review st0 "r1" "edited text" "fb" "alice" 1
        "2024-01-03T00:00:00").2.map ContentVersion.status =
      some ContentStatus.human_edited) ∧
    dictGet (complete_review st0 "r1" "edited text" "fb" "alice" 1
      "2024-01-03T00:00:00").1.completed "r1" =
      some { rq0 with status := "completed", reviewer_notes := "fb" } := by
  have h := (complete_review_spec st0 "r1" "edited text" "fb" "alice" 1
    "2024-01-03T00:00:00").1 rq0 (by decide)
  exact ⟨h.1, h.2.2.2.2.2.2.2⟩

/-- C9 (confirmed): a rejected review request stays in the pending
collection with status `rejected` (so `get_review_details` still finds
it while `get_pending_reviews` omits it), and a subsequent
`complete_review` on it still succeeds: it yields a human-edited
version and moves the request into the completed collection with
status `completed`. -/
theorem reject_then_complete_spec (st : ReviewState)
    (review_id reason updated_content feedback reviewer_name : String)
    (uuid_seed : Nat) (now : String) (r : ReviewRequest)
    (h : dictGet st.pending review_id = some r)
    (hnd : (st.pending.map Prod.fst).Nodup) :
    (reject_review st review_id reason).2 = true ∧
    dictGet (reject_review st review_id reason).1.pending review_id =
      some { r with status := "rejected", reviewer_notes := reason } ∧
    ((get_review_details (reject_review st review_id reason).1 review_id).map
      ReviewDetails.status = some "rejected") ∧
    ((get_pending_reviews (reject_review st review_id reason).1 none none).all
      (fun p => decide (p.1 ≠ review_id)) = true) ∧
    ((complete_review (reject_review st review_id reason).1 review_id
        updated_content feedback reviewer_name uuid_seed now).2.map
      ContentVersion.status = some ContentStatus.human_edited) ∧
    dictGet (complete_review (reject_review st review_id reason).1 review_id
      updated_content feedback reviewer_name uuid_seed now).1.pending review_id =
      none ∧
    dictGet (complete_review (reject_review st review_id reason).1 review_id
      updated_content feedback reviewer_name uuid_seed now).1.completed review_id =
      some { r with status := "completed", reviewer_notes := feedback } := by
  have hrej : reject_review st review_id reason =
      ({ st with
         pending := dictSet st.pending review_id
           ({ r with status := "rejected", reviewer_notes := reason }) },
       true) := by
    simp [reject_review, h]
  have hget1 : dictGet (reject_review st review_id reason).1.pending review_id =
      some { r with status := "rejected", reviewer_notes := reason } := by
    rw [hrej]
    exact dictGet_set_self st.pending review_id _
  have hcomp : complete_review (reject_review st review_id reason).1 review_id
      updated_content feedback reviewer_name uuid_seed now =
      ({ pending := dictErase (reject_review st review_id reason).1.pending review_id
         completed := dictSet (reject_review st review_id reason).1.completed review_id
           { r with status := "completed", reviewer_notes := feedback } },
       some (mk_content_version (gen_uuid uuid_seed) r.chapter_id updated_content
         ContentStatus.human_edited AgentType.human_editor
         [("feedback", .str feedback), ("review_id", .str review_id),
          ("reviewer_name", .str reviewer_name), ("review_type", .str r.review_type),
          ("review_completed_at", .str now)]
         now (some r.version.id) uuid_seed)) := by
    simp [complete_review, hget1]
  refine ⟨by rw [hrej], hget1, ?_, ?_, ?_, ?_, ?_⟩
  · simp [get_review_details, hget1]
  · rw [List.all_eq_true]
    intro p hp
    have hmem := List.mem_filter.mp hp
    have hpend : p.2.status = "pending" := by
      have := hmem.2
      simp only [Bool.and_eq_true, decide_eq_true_eq] at this
      exact this.1.1
    by_contra hcon
    simp only [decide_eq_true_eq, Decidable.not_not] at hcon
    have hnd1 : ((reject_review st review_id reason).1.pending.map Prod.fst).Nodup := by
      rw [hrej]
      exact dictSet_map_fst_nodup st.pending review_id _ hnd
    have hpmem : (review_id, p.2) ∈ (reject_review st review_id reason).1.pending := by
      have : p = (review_id, p.2) := by
        rw [← hcon]
      rw [← this]
      exact hmem.1
    have := dictGet_of_mem_nodup _ review_id p.2 hpmem hnd1
    rw [hget1] at this
    have hp2 : p.2 = { r with status := "rejected", reviewer_notes := reason } := by
      injection this.symm
    rw [hp2] at hpend
    simp at hpend
  · rw [hcomp]
    rfl
  · rw [hcomp]
    exact dictGet_erase_self _ review_id
  · rw [hcomp]
    exact dictGet_set_self _ review_id _

/-- Witness for C9: rejecting the pending review `r1` keeps it in the
pending collection with status `rejected`, and completing it afterwards
still succeeds. -/
theorem reject_then_complete_spec_witness :
    (reject_review st0 "r1" "needs work").2 = true ∧
    dictGet (reject_review st0 "r1" "needs work").1.pending "r1" =
      some { rq0 with status := "rejected", reviewer_notes := "needs work" } ∧
    ((complete_review (reject_review st0 "r1" "needs work").1 "r1"
        "edited" "fb" "bob" 2 "2024-01-04T00:00:00").2.map
      ContentVersion.status = some ContentStatus.human_edited) := by
  have h := reject_then_complete_spec st0 "r1" "needs work" "edited" "fb" "bob" 2
    "2024-01-04T00:00:00" rq0 (by decide) (by decide)
  exact ⟨h.1, h.2.1, h.2.2.2.2.1⟩

/-! ## Counting lemmas for the version tree -/

theorem count_full_list_append (i : String) (a b : List TNode) :
    count_full_list i (a ++ b) = count_full_list i a + count_full_list i b := by
  induction a with
  | nil => simp [count_full_list]
  | cons n ns ih =>
    show count_full i n + count_full_list i (ns ++ b) = _
    rw [ih]
    show _ = count_full i n + count_full_list i ns + count_full_list i b
    omega

theorem count_full_append_child (i : String) (n c : TNode) :
    count_full i (t_append_child n c) = count_full i n + count_full i c := by
  have hsingle : count_full_list i [c] = count_full i c := by
    simp [count_full_list]
  cases n with
  | full j st ag ca cl ch =>
    show (if j = i then 1 else 0) + count_full_list i (ch ++ [c]) = _
    rw [count_full_list_append, hsingle]
    show _ = (if j = i then 1 else 0) + count_full_list i ch + count_full i c
    omega
  | stub j ch =>
    show count_full_list i (ch ++ [c]) = _
    rw [count_full_list_append, hsingle]
    rfl

theorem count_full_forest_append (i : String) (a b : Forest) :
    count_full_forest i (a ++ b) = count_full_forest i a + count_full_forest i b := by
  induction a with
  | nil => simp [count_full_forest]
  | cons p ps ih =>
    obtain ⟨k, n⟩ := p
    show count_full i n + count_full_forest i (ps ++ b) = _
    rw [ih]
    show _ = count_full i n + count_full_forest i ps + count_full_forest i b
    omega

theorem count_full_tree_info (i : String) (v : ContentVersion) :
    count_full i (tree_info v) = if v.id = i then 1 else 0 := by
  show (if v.id = i then 1 else 0) + count_full_list i [] = _
  simp [count_full_list]

theorem count_full_stub_nil (i p : String) :
    count_full i (TNode.stub p []) = 0 := by
  show count_full_list i [] = 0
  rfl

theorem count_full_forest_modify (m : Forest) (k : String) (c : TNode) (i : String)
    (hk : dictHasKey m k = true) :
    count_full_forest i (dictModify m k (fun n => t_append_child n c)) =
      count_full_forest i m + count_full i c := by
  induction m with
  | nil => simp [dictHasKey, dictGet] at hk
  | cons p ps ih =>
    obtain ⟨k', n⟩ := p
    by_cases h : k' = k
    · have hred : dictModify ((k', n) :: ps) k (fun n => t_append_child n c) =
          (k', t_append_child n c) :: ps := by
        simp [dictModify, h]
      rw [hred]
      simp only [count_full_forest, count_full_append_child]
      omega
    · have hk2 : dictHasKey ps k = true := by
        simpa [dictHasKey, dictGet, h] using hk
      have hred : dictModify ((k', n) :: ps) k (fun n => t_append_child n c) =
          (k', n) :: dictModify ps k (fun n => t_append_child n c) := by
        simp [dictModify, h]
      rw [hred]
      simp only [count_full_forest, ih hk2]
      omega

theorem dictHasKey_append {α : Type} (a b : List (String × α)) (k : String) :
    dictHasKey (a ++ b) k = (dictHasKey a k || dictHasKey b k) := by
  induction a with
  | nil => simp [dictHasKey, dictGet]
  | cons p ps ih =>
    obtain ⟨k', v⟩ := p
    by_cases h : k' = k
    · simp [dictHasKey, dictGet, h]
    · simpa [dictHasKey, dictGet, h] using ih

theorem dictHasKey_modify {α : Type} (m : List (String × α)) (k k2 : String) (f : α → α) :
    dictHasKey (dictModify m k f) k2 = dictHasKey m k2 := by
  induction m with
  | nil => rfl
  | cons p ps ih =>
    obtain ⟨k', v⟩ := p
    by_cases h : k' = k
    · have hred : dictModify ((k', v) :: ps) k f = (k', f v) :: ps := by
        simp [dictModify, h]
      rw [hred]
      by_cases h2 : k' = k2
      · simp [dictHasKey, dictGet, h2]
      · simp [dictHasKey, dictGet, h2]
    · have hred : dictModify ((k', v) :: ps) k f = (k', v) :: dictModify ps k f := by
        simp [dictModify, h]
      rw [hred]
      by_cases h2 : k' = k2
      · simp [dictHasKey, dictGet, h2]
      · simp only [dictHasKey, dictGet, if_neg h2]
        exact ih

theorem dictHasKey_singleton {α : Type} (a : String) (x : α) (k : String)
    (h : dictHasKey [(a, x)] k = true) : a = k := by
  by_cases hak : a = k
  · exact hak
  · simp [dictHasKey, dictGet, hak] at h

/-- Invariant induction over the `get_version_tree` loop: processing the
remaining versions keeps one `version_info` node per already-processed
version and creates exactly one for each remaining version, provided
ids are distinct and every in-set parent precedes its children. -/
theorem tree_aux (all_ids : List String) (rest : List ContentVersion) :
    ∀ (seen : List ContentVersion) (tree : Forest),
    (seen.map ContentVersion.id ++ rest.map ContentVersion.id).Nodup →
    lineage_ordered all_ids (seen.map ContentVersion.id) rest = true →
    (∀ w ∈ rest, w.parent_version_id ≠ some "") →
    (∀ i ∈ rest.map ContentVersion.id, i ∈ all_ids) →
    (∀ i ∈ seen.map ContentVersion.id, count_full_forest i tree = 1) →
    (∀ i, i ∉ seen.map ContentVersion.id → count_full_forest i tree = 0) →
    (∀ k, dictHasKey tree k = true →
      k ∈ seen.map ContentVersion.id ∨ ∃ w ∈ seen, w.parent_version_id = some k) →
    (∀ w ∈ seen, ∀ pid, w.parent_version_id = some pid → pid ∈ all_ids →
      pid ∈ seen.map ContentVersion.id) →
    ∀ i, (i ∈ seen.map ContentVersion.id ∨ i ∈ rest.map ContentVersion.id) →
      count_full_forest i (List.foldl get_version_tree_step tree rest) = 1 := by
  induction rest with
  | nil =>
    intro seen tree hnd hord hpar hsub inv1 inv2 inv3 inv4 i hi
    rcases hi with hi | hi
    · exact inv1 i hi
    · simp at hi
  | cons v rest2 ih =>
    intro seen tree hnd hord hpar hsub inv1 inv2 inv3 inv4 i hi
    have hndr : (seen.map ContentVersion.id ++
        (v.id :: rest2.map ContentVersion.id)).Nodup := by
      simpa using hnd
    rcases List.nodup_append.mp hndr with ⟨hnd_seen, hnd_rest, hdisj⟩
    have hvnotseen : v.id ∉ seen.map ContentVersion.id := fun hmem =>
      hdisj hmem (List.mem_cons_self _ _)
    simp only [lineage_ordered, Bool.and_eq_true] at hord
    obtain ⟨hord_head, hord_tail⟩ := hord
    -- shared hypothesis transports to (seen ++ [v], rest2)
    have hnd2 : ((seen ++ [v]).map ContentVersion.id ++
        rest2.map ContentVersion.id).Nodup := by
      simpa [List.append_assoc] using hndr
    have hord2 : lineage_ordered all_ids ((seen ++ [v]).map ContentVersion.id)
        rest2 = true := by
      simpa [List.map_append] using hord_tail
    have hpar2 : ∀ w ∈ rest2, w.parent_version_id ≠ some "" :=
      fun w hw => hpar w (List.mem_cons_of_mem _ hw)
    have hsub2 : ∀ i2 ∈ rest2.map ContentVersion.id, i2 ∈ all_ids := by
      intro i2 h2
      refine hsub i2 ?_
      simp only [List.map_cons, List.mem_cons]
      exact Or.inr h2
    have hvid_all : v.id ∈ all_ids := hsub v.id (by simp)
    have hmemnew : ∀ i2, i2 ∈ (seen ++ [v]).map ContentVersion.id ↔
        (i2 ∈ seen.map ContentVersion.id ∨ i2 = v.id) := by
      intro i2
      simp [List.map_append]
    have hfold : List.foldl get_version_tree_step tree (v :: rest2) =
        List.foldl get_version_tree_step (get_version_tree_step tree v) rest2 := rfl
    rw [hfold]
    have hinext : i ∈ (seen ++ [v]).map ContentVersion.id ∨
        i ∈ rest2.map ContentVersion.id := by
      rcases hi with hi | hi
      · exact Or.inl ((hmemnew i).mpr (Or.inl hi))
      · simp only [List.map_cons, List.mem_cons] at hi
        rcases hi with hi | hi
        · exact Or.inl ((hmemnew i).mpr (Or.inr hi))
        · exact Or.inr hi
    -- the two step shapes share these two facts:
    have hmain : (∀ i2, count_full_forest i2 (get_version_tree_step tree v) =
          count_full_forest i2 tree + (if v.id = i2 then 1 else 0)) ∧
        (∀ k, dictHasKey (get_version_tree_step tree v) k = true →
          dictHasKey tree k = true ∨ k = v.id ∨
            (∃ pid, v.parent_version_id = some pid ∧ k = pid)) := by
      cases hv : v.parent_version_id with
      | none =>
        have hfresh : dictHasKey tree v.id = false := by
          cases hcase : dictHasKey tree v.id
          · rfl
          · exfalso
            rcases inv3 v.id hcase with hmem | ⟨w, hw, hwp⟩
            · exact hvnotseen hmem
            · exact hvnotseen (inv4 w hw v.id hwp hvid_all)
        have hset : get_version_tree_step tree v = tree ++ [(v.id, tree_info v)] := by
          simp only [get_version_tree_step, hv]
          exact dictSet_fresh tree v.id _ hfresh
        constructor
        · intro i2
          rw [hset, count_full_forest_append]
          have : count_full_forest i2 [(v.id, tree_info v)] =
              (if v.id = i2 then 1 else 0) := by
            show count_full i2 (tree_info v) + 0 = _
            rw [count_full_tree_info]
            omega
          rw [this]
        · intro k hk
          rw [hset, dictHasKey_append] at hk
          rcases Bool.or_eq_true_iff.mp hk with hk | hk
          · exact Or.inl hk
          · exact Or.inr (Or.inl (dictHasKey_singleton _ _ _ hk).symm)
      | some pid =>
        have hpid : pid ≠ "" := by
          intro hc
          exact hpar v (List.mem_cons_self _ _) (by rw [hv, hc])
        have hstep : get_version_tree_step tree v =
            dictModify
              (if dictHasKey tree pid then tree else dictSet tree pid (.stub pid []))
              pid (fun n => t_append_child n (tree_info v)) := by
          simp [get_version_tree_step, hv, hpid]
        have ht1counts : ∀ i2, count_full_forest i2
            (if dictHasKey tree pid then tree else dictSet tree pid (.stub pid [])) =
            count_full_forest i2 tree := by
          intro i2
          by_cases hkp : dictHasKey tree pid
          · rw [if_pos hkp]
          · rw [if_neg hkp,
              dictSet_fresh tree pid _ (Bool.of_not_eq_true hkp),
              count_full_forest_append]
            have : count_full_forest i2 [(pid, TNode.stub pid [])] = 0 := by
              show count_full i2 (TNode.stub pid []) + 0 = 0
              rw [count_full_stub_nil]
            rw [this]
            omega
        have ht1key : dictHasKey
            (if dictHasKey tree pid then tree else dictSet tree pid (.stub pid []))
            pid = true := by
          by_cases hkp : dictHasKey tree pid
          · rw [if_pos hkp]
            exact hkp
          · rw [if_neg hkp]
            show (dictGet (dictSet tree pid (.stub pid [])) pid).isSome = true
            rw [dictGet_set_self]
            rfl
        constructor
        · intro i2
          rw [hstep, count_full_forest_modify _ _ _ _ ht1key, ht1counts i2,
            count_full_tree_info]
        · intro k hk
          rw [hstep, dictHasKey_modify] at hk
          by_cases hkp : dictHasKey tree pid
          · rw [if_pos hkp] at hk
            exact Or.inl hk
          · rw [if_neg hkp,
              dictSet_fresh tree pid _ (Bool.of_not_eq_true hkp),
              dictHasKey_append] at hk
            rcases Bool.or_eq_true_iff.mp hk with hk | hk
            · exact Or.inl hk
            · exact Or.inr (Or.inr ⟨pid, rfl, (dictHasKey_singleton _ _ _ hk).symm⟩)
    obtain ⟨hcount, hkeys⟩ := hmain
    -- new invariants
    have inv1' : ∀ i2 ∈ (seen ++ [v]).map ContentVersion.id,
        count_full_forest i2 (get_version_tree_step tree v) = 1 := by
      intro i2 h2
      rcases (hmemnew i2).mp h2 with h2 | h2
      · have hne : v.id ≠ i2 := by
          intro hc
          exact hvnotseen (hc ▸ h2)
        rw [hcount i2, inv1 i2 h2, if_neg hne]
      · subst h2
        rw [hcount v.id, inv2 v.id hvnotseen, if_pos rfl]
    have inv2' : ∀ i2, i2 ∉ (seen ++ [v]).map ContentVersion.id →
        count_full_forest i2 (get_version_tree_step tree v) = 0 := by
      intro i2 h2
      rw [hmemnew i2] at h2
      push_neg at h2
      rw [hcount i2, inv2 i2 h2.1, if_neg (fun hc => h2.2 hc.symm)]
    have inv3' : ∀ k, dictHasKey (get_version_tree_step tree v) k = true →
        k ∈ (seen ++ [v]).map ContentVersion.id ∨
          ∃ w ∈ seen ++ [v], w.parent_version_id = some k := by
      intro k hk
      rcases hkeys k hk with hk2 | hk2 | ⟨pid, hpid1, hpid2⟩
      · rcases inv3 k hk2 with hmem | ⟨w, hw, hwp⟩
        · exact Or.inl ((hmemnew k).mpr (Or.inl hmem))
        · exact Or.inr ⟨w, List.mem_append_left _ hw, hwp⟩
      · exact Or.inl ((hmemnew k).mpr (Or.inr hk2))
      · exact Or.inr ⟨v, List.mem_append_right _ (List.mem_singleton.mpr rfl),
          by rw [hpid1, hpid2]⟩
    have inv4' : ∀ w ∈ seen ++ [v], ∀ pid, w.parent_version_id = some pid →
        pid ∈ all_ids → pid ∈ (seen ++ [v]).map ContentVersion.id := by
      intro w hw pid hwp hpall
      rcases List.mem_append.mp hw with hw | hw
      · exact (hmemnew pid).mpr (Or.inl (inv4 w hw pid hwp hpall))
      · have hwv : w = v := List.mem_singleton.mp hw
        subst hwv
        rw [hwp] at hord_head
        simp only [Bool.or_eq_true, decide_eq_true_eq] at hord_head
        rcases hord_head with hmem | hnotall
        · exact (hmemnew pid).mpr (Or.inl hmem)
        · exact absurd hpall hnotall
    exact ih (seen ++ [v]) (get_version_tree_step tree v) hnd2 hord2 hpar2 hsub2
      inv1' inv2' inv3' inv4' i hinext

/-- C2 (corrected): when the chapter's versions are listed
parent-before-child with distinct ids (the order creation-time sorting
yields when children are created after their parents) and no version
carries an empty-string parent id, every version contributes exactly
one `version_info` node to the forest built by `get_version_tree` — as
a top-level root when it has no parent, otherwise as a child appended
under the top-level entry keyed by its parent's id.  (A version may in
addition be named by a top-level stub entry when it is a non-root
parent, which is what the counterexample exhibits.) -/
theorem get_version_tree_full_info_once (versions : List ContentVersion)
    (hnd : (versions.map ContentVersion.id).Nodup)
    (hord : lineage_ordered (versions.map ContentVersion.id) [] versions = true)
    (hpar : ∀ w ∈ versions, w.parent_version_id ≠ some "") :
    ∀ v ∈ versions, count_full_forest v.id (get_version_tree versions) = 1 := by
  intro v hv
  have h := tree_aux (versions.map ContentVersion.id) versions [] []
    (by simpa using hnd) (by simpa using hord) hpar (fun i hi => hi)
    (by intro i hi; simp at hi) (fun i _ => rfl)
    (by intro k hk; simp [dictHasKey, dictGet] at hk)
    (by intro w hw; simp at hw)
    v.id (Or.inr (List.mem_map_of_mem _ hv))
  simpa [get_version_tree] using h

/-- Witness for C2: in the three-version chain `A ← B ← C`, version `B`
has exactly one `version_info` node in the forest. -/
theorem get_version_tree_full_info_once_witness :
    count_full_forest vB.id (get_version_tree chainABC) = 1 :=
  get_version_tree_full_info_once chainABC (by decide) (by decide)
    (by decide) vB (by decide)

/-- Counterexample for C2: in the chain `A ← B ← C` (research → draft →
spun, the shape every three-stage chapter produces), version `B` — which
has a parent in the same chapter — appears twice in the forest: once as
a `version_info` child of `A` and once as a top-level stub entry created
while attaching `C`; its id is also a top-level key even though `B` is
not a root.  This refutes appears-exactly-once. -/
theorem version_appears_twice_in_tree :
    vB ∈ chainABC ∧ vB.parent_version_id = some "A" ∧
      count_id_forest vB.id (get_version_tree chainABC) = 2 ∧
      dictHasKey (get_version_tree chainABC) vB.id = true := by
  refine ⟨by decide, by decide, by decide, by decide⟩

end ContentForge
